import Mathlib

/-!
# InsightDeck — verification of the report-synthesis pipeline

Shallow embedding of the InsightDeck pipeline (schema validation, per-day and
per-service aggregation, KPI growth figures, threshold-driven risk narrative,
and the layout-engine geometry for auto-fitting text and images), together
with theorems settling the specified properties.

Real-number quantities (ratios, currency, SLA percentages) are modelled over
`ℚ`; machine floats introduce only rounding, and the specified properties are
exact arithmetic facts.  Calendar days are modelled by their ordinal (`ℕ`),
which preserves the chronological order used for sorting and grouping.
-/

namespace InsightDeck

/-! ## Layout engine: auto-fit image (src/services/ppt_engine.py, fit_picture_in_box)

The source computes, from the image's natural size `(iw, ih)` and the target
box `(x, y, box_w, box_h)`:

    img_ratio = iw / ih
    box_ratio = box_w / box_h
    if img_ratio >= box_ratio: target_w = box_w; target_h = box_w / img_ratio
    else:                      target_h = box_h; target_w = box_h * img_ratio
    x2 = x + (box_w - target_w) / 2
    y2 = y + (box_h - target_h) / 2
-/

structure FitResult where
  target_w : ℚ
  target_h : ℚ
  x2 : ℚ
  y2 : ℚ
deriving Repr, DecidableEq

/-- Embedding of `fit_picture_in_box`: the drawn size and centered offset of an
image of natural size `iw × ih` placed into the box at `(x, y)` of size
`box_w × box_h`.  `r_img` and `r_box` embed the source's `img_ratio` and
`box_ratio`. -/
def fit_picture_in_box (iw ih x y box_w box_h : ℚ) : FitResult :=
  let r_img := iw / ih
  let r_box := box_w / box_h
  let tw := if r_img ≥ r_box then box_w else box_h * r_img
  let th := if r_img ≥ r_box then box_w / r_img else box_h
  { target_w := tw, target_h := th
    x2 := x + (box_w - tw) / 2
    y2 := y + (box_h - th) / 2 }

theorem fit_target_w_of_ge (iw ih x y bw bh : ℚ) (hge : iw / ih ≥ bw / bh) :
    (fit_picture_in_box iw ih x y bw bh).target_w = bw := by
  simp [fit_picture_in_box, hge]

theorem fit_target_h_of_ge (iw ih x y bw bh : ℚ) (hge : iw / ih ≥ bw / bh) :
    (fit_picture_in_box iw ih x y bw bh).target_h = bw / (iw / ih) := by
  simp [fit_picture_in_box, hge]

theorem fit_target_w_of_lt (iw ih x y bw bh : ℚ) (hlt : iw / ih < bw / bh) :
    (fit_picture_in_box iw ih x y bw bh).target_w = bh * (iw / ih) := by
  simp [fit_picture_in_box, not_le.mpr hlt]

theorem fit_target_h_of_lt (iw ih x y bw bh : ℚ) (hlt : iw / ih < bw / bh) :
    (fit_picture_in_box iw ih x y bw bh).target_h = bh := by
  simp [fit_picture_in_box, not_le.mpr hlt]

theorem fit_x2_eq (iw ih x y bw bh : ℚ) :
    (fit_picture_in_box iw ih x y bw bh).x2 =
      x + (bw - (fit_picture_in_box iw ih x y bw bh).target_w) / 2 := by
  simp [fit_picture_in_box]

theorem fit_y2_eq (iw ih x y bw bh : ℚ) :
    (fit_picture_in_box iw ih x y bw bh).y2 =
      y + (bh - (fit_picture_in_box iw ih x y bw bh).target_h) / 2 := by
  simp [fit_picture_in_box]

/-- C1: for positive natural dimensions and a positive box, the auto-fit image
placement stays within the box in both dimensions, preserves the aspect ratio
exactly, centers the result at `x + (box_w - target_w)/2`,
`y + (box_h - target_h)/2`, and takes the width-constrained branch exactly
when the image ratio is at least the box ratio. -/
theorem fit_picture_in_box_spec (iw ih x y bw bh : ℚ)
    (hiw : 0 < iw) (hih : 0 < ih) (hbw : 0 < bw) (hbh : 0 < bh) :
    (fit_picture_in_box iw ih x y bw bh).target_w ≤ bw ∧
    (fit_picture_in_box iw ih x y bw bh).target_h ≤ bh ∧
    (fit_picture_in_box iw ih x y bw bh).target_w /
      (fit_picture_in_box iw ih x y bw bh).target_h = iw / ih ∧
    (fit_picture_in_box iw ih x y bw bh).x2 =
      x + (bw - (fit_picture_in_box iw ih x y bw bh).target_w) / 2 ∧
    (fit_picture_in_box iw ih x y bw bh).y2 =
      y + (bh - (fit_picture_in_box iw ih x y bw bh).target_h) / 2 ∧
    (iw / ih ≥ bw / bh → (fit_picture_in_box iw ih x y bw bh).target_w = bw) ∧
    (¬ iw / ih ≥ bw / bh → (fit_picture_in_box iw ih x y bw bh).target_h = bh) := by
  have hr : 0 < iw / ih := div_pos hiw hih
  refine ⟨?_, ?_, ?_, fit_x2_eq iw ih x y bw bh, fit_y2_eq iw ih x y bw bh,
    fun hge => fit_target_w_of_ge iw ih x y bw bh hge,
    fun hn => fit_target_h_of_lt iw ih x y bw bh (lt_of_not_ge hn)⟩
  · by_cases hge : iw / ih ≥ bw / bh
    · rw [fit_target_w_of_ge iw ih x y bw bh hge]
    · push_neg at hge
      rw [fit_target_w_of_lt iw ih x y bw bh hge]
      have h2 : bh * (iw / ih) < bh * (bw / bh) := mul_lt_mul_of_pos_left hge hbh
      have h3 : bh * (bw / bh) = bw := by
        rw [mul_comm]
        exact div_mul_cancel₀ bw (ne_of_gt hbh)
      linarith
  · by_cases hge : iw / ih ≥ bw / bh
    · rw [fit_target_h_of_ge iw ih x y bw bh hge]
      rw [div_le_iff₀ hr, ← mul_div_assoc, le_div_iff₀ hih]
      rw [ge_iff_le, div_le_div_iff₀ hbh hih] at hge
      linarith
    · push_neg at hge
      rw [fit_target_h_of_lt iw ih x y bw bh hge]
  · by_cases hge : iw / ih ≥ bw / bh
    · rw [fit_target_w_of_ge iw ih x y bw bh hge, fit_target_h_of_ge iw ih x y bw bh hge]
      rw [div_div_eq_mul_div]
      exact mul_div_cancel_left₀ _ (ne_of_gt hbw)
    · push_neg at hge
      rw [fit_target_w_of_lt iw ih x y bw bh hge, fit_target_h_of_lt iw ih x y bw bh hge]
      exact mul_div_cancel_left₀ _ (ne_of_gt hbh)

/-- Witness for C1 at a concrete input: a 4×2 image in a 2×3 box at the
origin is width-constrained, drawn 2×1 and centered at (0, 1). -/
theorem fit_picture_in_box_spec_witness :
    (fit_picture_in_box 4 2 0 0 2 3).target_w ≤ 2 ∧
    (fit_picture_in_box 4 2 0 0 2 3).target_h ≤ 3 ∧
    (fit_picture_in_box 4 2 0 0 2 3).target_w /
      (fit_picture_in_box 4 2 0 0 2 3).target_h = 4 / 2 ∧
    (fit_picture_in_box 4 2 0 0 2 3).x2 =
      0 + (2 - (fit_picture_in_box 4 2 0 0 2 3).target_w) / 2 ∧
    (fit_picture_in_box 4 2 0 0 2 3).y2 =
      0 + (3 - (fit_picture_in_box 4 2 0 0 2 3).target_h) / 2 ∧
    ((4 : ℚ) / 2 ≥ 2 / 3 → (fit_picture_in_box 4 2 0 0 2 3).target_w = 2) ∧
    (¬ (4 : ℚ) / 2 ≥ 2 / 3 → (fit_picture_in_box 4 2 0 0 2 3).target_h = 3) :=
  fit_picture_in_box_spec 4 2 0 0 2 3 (by norm_num) (by norm_num) (by norm_num)
    (by norm_num)

/-- C10: the auto-fit image placement is maximal — the width-constrained
branch fills the box width exactly, the height-constrained branch fills the
box height exactly, and no aspect-preserving size that fits in the box
exceeds the drawn size in either dimension. -/
theorem fit_picture_in_box_maximal (iw ih x y bw bh : ℚ)
    (hiw : 0 < iw) (hih : 0 < ih) (hbw : 0 < bw) (hbh : 0 < bh) :
    (iw / ih ≥ bw / bh → (fit_picture_in_box iw ih x y bw bh).target_w = bw) ∧
    (¬ iw / ih ≥ bw / bh → (fit_picture_in_box iw ih x y bw bh).target_h = bh) ∧
    (∀ w h : ℚ, 0 < h → w ≤ bw → h ≤ bh → w / h = iw / ih →
      w ≤ (fit_picture_in_box iw ih x y bw bh).target_w ∧
      h ≤ (fit_picture_in_box iw ih x y bw bh).target_h) := by
  have hr : 0 < iw / ih := div_pos hiw hih
  refine ⟨fun hge => fit_target_w_of_ge iw ih x y bw bh hge,
    fun hn => fit_target_h_of_lt iw ih x y bw bh (lt_of_not_ge hn),
    fun w h hh hwb hhb hasp => ?_⟩
  have hw : w = (iw / ih) * h := by
    rw [← hasp]
    exact (div_mul_cancel₀ w (ne_of_gt hh)).symm
  by_cases hge : iw / ih ≥ bw / bh
  · rw [fit_target_w_of_ge iw ih x y bw bh hge, fit_target_h_of_ge iw ih x y bw bh hge]
    refine ⟨hwb, ?_⟩
    rw [le_div_iff₀ hr]
    calc h * (iw / ih) = w := by rw [hw, mul_comm]
    _ ≤ bw := hwb
  · push_neg at hge
    rw [fit_target_w_of_lt iw ih x y bw bh hge, fit_target_h_of_lt iw ih x y bw bh hge]
    refine ⟨?_, hhb⟩
    rw [hw]
    calc (iw / ih) * h ≤ (iw / ih) * bh := mul_le_mul_of_nonneg_left hhb (le_of_lt hr)
    _ = bh * (iw / ih) := mul_comm _ _

/-- Witness for C10 at a concrete input: a 1×3 image in a 2×3 box is
height-constrained and fills the full box height, and the competing
aspect-preserving size 1×3 does not exceed the drawn size. -/
theorem fit_picture_in_box_maximal_witness :
    (((1 : ℚ) / 3 ≥ 2 / 3 → (fit_picture_in_box 1 3 0 0 2 3).target_w = 2) ∧
    (¬ (1 : ℚ) / 3 ≥ 2 / 3 → (fit_picture_in_box 1 3 0 0 2 3).target_h = 3)) ∧
    ((1 : ℚ) ≤ (fit_picture_in_box 1 3 0 0 2 3).target_w ∧
      (3 : ℚ) ≤ (fit_picture_in_box 1 3 0 0 2 3).target_h) := by
  have h := fit_picture_in_box_maximal 1 3 0 0 2 3 (by norm_num) (by norm_num)
    (by norm_num) (by norm_num)
  exact ⟨⟨h.1, h.2.1⟩, h.2.2 1 3 (by norm_num) (by norm_num) (by norm_num) (by norm_num)⟩

/-! ## Layout engine: auto-fit text (src/app/ppt.py, _safe_lines)

The source's hard-truncate stage:

    out = []
    for s in lines[:max_lines]:
        s = s.strip()
        if len(s) > max_chars:
            s = s[: max_chars - 1].rstrip() + ellipsis
        out.append(s)
    return out

Lines are modelled as `List Char`; Python's default `str.strip`/`str.rstrip`
whitespace set is `pyIsSpace`. -/

/-- The characters stripped by Python's default `str.strip` (`string.whitespace`). -/
def pyIsSpace (c : Char) : Bool :=
  c = ' ' || c = '\t' || c = '\n' || c = '\r' || c = '\x0b' || c = '\x0c'

/-- Python `s.lstrip()`: drop leading whitespace. -/
def lstrip (s : List Char) : List Char := s.dropWhile pyIsSpace

/-- Python `s.rstrip()`: drop trailing whitespace. -/
def rstrip : List Char → List Char
  | [] => []
  | c :: t => if rstrip t = [] && pyIsSpace c then [] else c :: rstrip t

/-- Python `s.strip()`: drop leading and trailing whitespace. -/
def strip (s : List Char) : List Char := rstrip (lstrip s)

/-- The ellipsis marker appended by `_safe_lines` to cut lines. -/
def ellipsisChar : Char := '…'

/-- One iteration of the `_safe_lines` loop body: strip the line, and if it is
still longer than `max_chars`, cut it to `max_chars - 1` characters, strip the
cut end, and append the ellipsis marker. -/
def truncateLine (max_chars : ℕ) (s : List Char) : List Char :=
  let t := strip s
  if max_chars < t.length then rstrip (t.take (max_chars - 1)) ++ [ellipsisChar]
  else t

/-- Embedding of `_safe_lines`: keep at most `max_lines` lines, truncating
each to at most `max_chars` characters. -/
def safe_lines (lines : List (List Char)) (max_lines max_chars : ℕ) :
    List (List Char) :=
  (lines.take max_lines).map (truncateLine max_chars)

theorem rstrip_length_le (s : List Char) : (rstrip s).length ≤ s.length := by
  induction s with
  | nil => simp [rstrip]
  | cons c t ih =>
    rw [rstrip]
    split
    · simp
    · simpa using ih

/-- C2: the hard-truncate stage returns at most `max_lines` lines, every
returned line has at most `max_chars` characters, and any line whose stripped
form exceeds `max_chars` characters is cut and ends in the ellipsis marker. -/
theorem safe_lines_bounds (lines : List (List Char)) (max_lines max_chars : ℕ)
    (hc : 1 ≤ max_chars) :
    (safe_lines lines max_lines max_chars).length ≤ max_lines ∧
    (∀ l ∈ safe_lines lines max_lines max_chars, l.length ≤ max_chars) ∧
    (∀ l ∈ lines.take max_lines, max_chars < (strip l).length →
      (truncateLine max_chars l).getLast? = some ellipsisChar) := by
  refine ⟨?_, ?_, ?_⟩
  · simpa [safe_lines] using List.length_take_le max_lines lines
  · intro l hl
    simp only [safe_lines, List.mem_map] at hl
    obtain ⟨s, _, rfl⟩ := hl
    rw [truncateLine]
    split
    · rw [List.length_append, List.length_cons, List.length_nil]
      have h1 : (rstrip ((strip s).take (max_chars - 1))).length ≤ max_chars - 1 :=
        le_trans (rstrip_length_le _) (by simpa using List.length_take_le _ _)
      omega
    · omega
  · intro l _ hlong
    rw [truncateLine, if_pos hlong, List.getLast?_append]
    rfl

/-- Witness for C2 at a concrete input: three lines capped to 2 lines of at
most 8 characters, the second of which is cut and marked with an ellipsis. -/
theorem safe_lines_bounds_witness :
    (safe_lines [" hello ".toList, "a too long line".toList, "x".toList] 2 8).length ≤ 2 ∧
    (∀ l ∈ safe_lines [" hello ".toList, "a too long line".toList, "x".toList] 2 8,
      l.length ≤ 8) ∧
    (∀ l ∈ [" hello ".toList, "a too long line".toList, "x".toList].take 2,
      8 < (strip l).length → (truncateLine 8 l).getLast? = some ellipsisChar) :=
  safe_lines_bounds _ 2 8 (by norm_num)

theorem lstrip_lstrip (s : List Char) : lstrip (lstrip s) = lstrip s := by
  induction s with
  | nil => rfl
  | cons c t ih =>
    by_cases h : pyIsSpace c
    · simpa [lstrip, List.dropWhile, h] using ih
    · simp [lstrip, List.dropWhile, h]

/-- The head of a list is not whitespace (vacuously true for `[]`). -/
def headClean : List Char → Prop
  | [] => True
  | c :: _ => pyIsSpace c = false

theorem headClean_lstrip (s : List Char) : headClean (lstrip s) := by
  induction s with
  | nil => trivial
  | cons c t ih =>
    by_cases h : pyIsSpace c
    · simpa [lstrip, List.dropWhile, h] using ih
    · simpa [lstrip, List.dropWhile, h, headClean] using Bool.of_not_eq_true h

theorem headClean_rstrip (s : List Char) (h : headClean s) : headClean (rstrip s) := by
  cases s with
  | nil => trivial
  | cons c t =>
    rw [rstrip]
    split
    · trivial
    · exact h

theorem lstrip_eq_self_of_headClean (s : List Char) (h : headClean s) :
    lstrip s = s := by
  cases s with
  | nil => rfl
  | cons c t =>
    have h' : pyIsSpace c = false := h
    simp [lstrip, List.dropWhile, h']

theorem rstrip_rstrip (s : List Char) : rstrip (rstrip s) = rstrip s := by
  induction s with
  | nil => rfl
  | cons c t ih =>
    rw [rstrip]
    split
    · rfl
    · rename_i hcond
      rw [rstrip, ih]
      simp only [Bool.and_eq_true] at hcond
      split
      · rename_i hcond2
        simp only [Bool.and_eq_true] at hcond2
        exact absurd (And.intro hcond2.1 hcond2.2) hcond
      · rfl

theorem rstrip_append_nonspace (s : List Char) (c : Char)
    (hc : pyIsSpace c = false) : rstrip (s ++ [c]) = s ++ [c] := by
  induction s with
  | nil => simp [rstrip, hc]
  | cons a t ih =>
    rw [List.cons_append, rstrip, ih]
    have : t ++ [c] ≠ [] := by simp
    simp [this]

theorem headClean_append (s u : List Char) (hs : headClean s) (hu : headClean u) :
    headClean (s ++ u) := by
  cases s with
  | nil => simpa using hu
  | cons a t => exact hs

theorem headClean_take (s : List Char) (n : ℕ) (h : headClean s) :
    headClean (s.take n) := by
  cases s with
  | nil => simp [List.take]; trivial
  | cons a t =>
    cases n with
    | zero => trivial
    | succ m => exact h

theorem headClean_strip (s : List Char) : headClean (strip s) :=
  headClean_rstrip _ (headClean_lstrip s)

theorem strip_eq_self_of_clean (s : List Char) (h1 : headClean s)
    (h2 : rstrip s = s) : strip s = s := by
  rw [strip, lstrip_eq_self_of_headClean s h1, h2]

/-- The output of `strip` is already fully stripped. -/
theorem strip_strip (s : List Char) : strip (strip s) = strip s :=
  strip_eq_self_of_clean _ (headClean_strip s) (rstrip_rstrip _)

theorem ellipsis_not_space : pyIsSpace ellipsisChar = false := by decide

/-- The output of `truncateLine` is already fully stripped. -/
theorem strip_truncateLine (max_chars : ℕ) (s : List Char) :
    strip (truncateLine max_chars s) = truncateLine max_chars s := by
  rw [truncateLine]
  split
  · apply strip_eq_self_of_clean
    · exact headClean_append _ _
        (headClean_rstrip _ (headClean_take _ _ (headClean_strip s)))
        (by simp [headClean, ellipsis_not_space])
    · exact rstrip_append_nonspace _ _ ellipsis_not_space
  · exact strip_strip s

theorem truncateLine_length_le (max_chars : ℕ) (hc : 1 ≤ max_chars)
    (s : List Char) : (truncateLine max_chars s).length ≤ max_chars := by
  rw [truncateLine]
  split
  · rw [List.length_append, List.length_cons, List.length_nil]
    have h1 : (rstrip ((strip s).take (max_chars - 1))).length ≤ max_chars - 1 :=
      le_trans (rstrip_length_le _) (by simpa using List.length_take_le _ _)
    omega
  · omega

/-- With a zero character cap, `truncateLine` returns the bare ellipsis for
any line with non-whitespace content, and the empty line otherwise. -/
theorem truncateLine_zero (s : List Char) :
    truncateLine 0 s = if 0 < (strip s).length then [ellipsisChar] else [] := by
  rw [truncateLine]
  split
  · simp [rstrip]
  · rename_i h
    simp only [not_lt, Nat.le_zero] at h
    exact List.length_eq_zero.mp h

/-- Truncating an already-truncated line changes nothing. -/
theorem truncateLine_idem (max_chars : ℕ) (s : List Char) :
    truncateLine max_chars (truncateLine max_chars s) = truncateLine max_chars s := by
  rcases Nat.eq_zero_or_pos max_chars with hc | hc
  · subst hc
    by_cases h : 0 < (strip s).length
    · rw [truncateLine_zero s, if_pos h, truncateLine_zero,
        show strip [ellipsisChar] = [ellipsisChar] from by decide]
      simp
    · rw [truncateLine_zero s, if_neg h, truncateLine_zero]
      decide
  · have hlen := truncateLine_length_le max_chars hc s
    rw [truncateLine, strip_truncateLine max_chars s, if_neg (not_lt.mpr hlen)]

/-- C3: the hard-truncate stage is idempotent — applying `_safe_lines` to its
own output (with the same caps) returns the output unchanged. -/
theorem safe_lines_idem (lines : List (List Char)) (max_lines max_chars : ℕ) :
    safe_lines (safe_lines lines max_lines max_chars) max_lines max_chars =
      safe_lines lines max_lines max_chars := by
  rw [safe_lines, safe_lines]
  have hlen : ((lines.take max_lines).map (truncateLine max_chars)).length ≤ max_lines := by
    simpa using List.length_take_le max_lines lines
  rw [List.take_of_length_le hlen, List.map_map]
  apply List.map_congr_left
  intro s _
  exact truncateLine_idem max_chars s

/-! ## Data model and metrics aggregation (src/services/ppt_engine.py, compute_metrics)

A normalized table row (after `load_and_validate_csv`: `usage_units` and
`incidents` are cast to `int`, `cost_gbp` and `sla_pct` to `float`).  The
service identifier string is modelled by its rank in the lexicographic
order of service names (`ℕ`): pandas `groupby("service")` only uses the
names' equality and their lexicographic order, both of which the rank
preserves. -/

structure Record where
  day : ℕ
  service : ℕ
  usage_units : ℤ
  cost_gbp : ℚ
  incidents : ℤ
  sla_pct : ℚ
deriving Repr, DecidableEq

/-- One row of the `daily` frame of `compute_metrics`. -/
structure DailyAggregate where
  day : ℕ
  total_usage : ℤ
  total_cost : ℚ
  total_incidents : ℤ
  avg_sla : ℚ
deriving Repr, DecidableEq

instance : Inhabited DailyAggregate := ⟨⟨0, 0, 0, 0, 0⟩⟩

/-- One row of the `svc` frame of `compute_metrics`. -/
structure ServiceAggregate where
  service : ℕ
  total_usage : ℤ
  total_incidents : ℤ
  avg_sla : ℚ
deriving Repr, DecidableEq

/-- The distinct days of a table, ascending: pandas `groupby("day")` sorts its
keys and `compute_metrics` then applies `.sort_values("day")`. -/
def dayKeys (rs : List Record) : List ℕ :=
  ((rs.map Record.day).dedup).insertionSort (· ≤ ·)

/-- The group of rows of day `d`. -/
def dayGroup (rs : List Record) (d : ℕ) : List Record :=
  rs.filter (fun r => r.day = d)

/-- Per-day sums of usage/cost/incidents and arithmetic mean of `sla_pct`. -/
def dailyAggOf (rs : List Record) (d : ℕ) : DailyAggregate :=
  { day := d
    total_usage := ((dayGroup rs d).map Record.usage_units).sum
    total_cost := ((dayGroup rs d).map Record.cost_gbp).sum
    total_incidents := ((dayGroup rs d).map Record.incidents).sum
    avg_sla := ((dayGroup rs d).map Record.sla_pct).sum / (dayGroup rs d).length }

/-- Embedding of the `daily` frame: one aggregate per distinct day, ascending. -/
def aggregate_by_day (rs : List Record) : List DailyAggregate :=
  (dayKeys rs).map (dailyAggOf rs)

/-- The KPI scalars of `compute_metrics`. -/
structure KPISet where
  usage_growth_pct : ℚ
  cost_growth_pct : ℚ
  sla_latest : ℚ
  sla_overall : ℚ
  incidents_total : ℤ
deriving Repr, DecidableEq

/-- Embedding of the KPI block of `compute_metrics`: `iloc[0]`/`iloc[-1]` of
the `daily` frame are its first/last rows (`headI`/`getLastI`; pandas raises
on an empty frame, so the `Inhabited` defaults never feed the pipeline), and
the growth figures are the zero-guarded period changes

    ((last - first) / first) * 100 if first else 0. -/
def compute_kpis (daily : List DailyAggregate) : KPISet :=
  let firstU : ℚ := daily.headI.total_usage
  let lastU : ℚ := daily.getLastI.total_usage
  let firstC : ℚ := daily.headI.total_cost
  let lastC : ℚ := daily.getLastI.total_cost
  { usage_growth_pct := if firstU = 0 then 0 else (lastU - firstU) / firstU * 100
    cost_growth_pct := if firstC = 0 then 0 else (lastC - firstC) / firstC * 100
    sla_latest := daily.getLastI.avg_sla
    sla_overall := (daily.map DailyAggregate.avg_sla).sum / daily.length
    incidents_total := (daily.map DailyAggregate.total_incidents).sum }

/-- Modelled from the spec for comparison with the code:
`growth_pct(first, last) = 0 if first == 0 else (last - first) / first * 100`. -/
def growth_pct (first last : ℚ) : ℚ :=
  if first = 0 then 0 else (last - first) / first * 100

/-- C4: the usage and cost growth figures of `compute_metrics` are exactly the
spec's division-guarded `growth_pct` applied to the first and last daily
aggregates; a zero first value yields exactly 0 for every last value, and
`growth_pct 100 150 = 50`. -/
theorem compute_kpis_growth (daily : List DailyAggregate) :
    ((compute_kpis daily).usage_growth_pct =
      growth_pct daily.headI.total_usage daily.getLastI.total_usage ∧
    (compute_kpis daily).cost_growth_pct =
      growth_pct daily.headI.total_cost daily.getLastI.total_cost) ∧
    (∀ x : ℚ, growth_pct 0 x = 0) ∧ growth_pct 100 150 = 50 := by
  refine ⟨⟨rfl, rfl⟩, fun x => by simp [growth_pct], by norm_num [growth_pct]⟩

/-- Summing an indicator column over a duplicate-free key list that contains
the key yields the single value. -/
theorem sum_map_ite_eq {κ β : Type} [DecidableEq κ] [AddCommMonoid β]
    (ks : List κ) (k₀ : κ) (v : β) (hnd : ks.Nodup) (hmem : k₀ ∈ ks) :
    (ks.map (fun k => if k₀ = k then v else 0)).sum = v := by
  induction ks with
  | nil => cases hmem
  | cons k ks ih =>
    rw [List.map_cons, List.sum_cons]
    rcases List.mem_cons.mp hmem with rfl | hk
    · rw [if_pos rfl]
      have hz : (ks.map (fun k => if k₀ = k then v else 0)).sum = 0 := by
        apply List.sum_eq_zero
        intro x hx
        obtain ⟨k, hkmem, rfl⟩ := List.mem_map.mp hx
        rw [if_neg]
        rintro rfl
        exact (List.nodup_cons.mp hnd).1 hkmem
      rw [hz, add_zero]
    · rw [if_neg, ih (List.nodup_cons.mp hnd).2 hk, zero_add]
      rintro rfl
      exact (List.nodup_cons.mp hnd).1 hk

/-- Grouping a list by a key list that covers it without duplicates preserves
column sums. -/
theorem sum_over_groups {α κ β : Type} [DecidableEq κ] [AddCommMonoid β]
    (key : α → κ) (f : α → β) (ks : List κ) (hnd : ks.Nodup) :
    ∀ rs : List α, (∀ r ∈ rs, key r ∈ ks) →
      (ks.map (fun k => ((rs.filter (fun r => key r = k)).map f).sum)).sum =
        (rs.map f).sum := by
  intro rs
  induction rs with
  | nil => intro _; simp
  | cons r rs ih =>
    intro hmem
    have hterm : ∀ k : κ,
        (((r :: rs).filter (fun x => key x = k)).map f).sum =
          (if key r = k then f r else 0) +
            ((rs.filter (fun x => key x = k)).map f).sum := by
      intro k
      by_cases h : key r = k
      · simp [List.filter_cons, h]
      · simp [List.filter_cons, h]
    calc (ks.map (fun k => (((r :: rs).filter (fun x => key x = k)).map f).sum)).sum
        = (ks.map (fun k => (if key r = k then f r else 0) +
            ((rs.filter (fun x => key x = k)).map f).sum)).sum := by
          exact congrArg List.sum (List.map_congr_left (fun k _ => hterm k))
      _ = (ks.map (fun k => if key r = k then f r else 0)).sum +
            (ks.map (fun k => ((rs.filter (fun x => key x = k)).map f).sum)).sum := by
          rw [← List.sum_map_add]
      _ = f r + (rs.map f).sum := by
          rw [sum_map_ite_eq ks (key r) (f r) hnd (hmem r (List.mem_cons_self r rs)),
            ih (fun x hx => hmem x (List.mem_cons_of_mem r hx))]
      _ = ((r :: rs).map f).sum := by simp

theorem dayKeys_nodup (rs : List Record) : (dayKeys rs).Nodup :=
  ((List.perm_insertionSort _ _).nodup_iff).mpr ((rs.map Record.day).nodup_dedup)

theorem mem_dayKeys (rs : List Record) (d : ℕ) :
    d ∈ dayKeys rs ↔ d ∈ rs.map Record.day := by
  rw [dayKeys, List.mem_insertionSort, List.mem_dedup]

theorem aggregate_by_day_days (rs : List Record) :
    (aggregate_by_day rs).map DailyAggregate.day = dayKeys rs := by
  rw [aggregate_by_day, List.map_map]
  exact List.map_id'' (fun d => rfl) (dayKeys rs)

/-- C5: the per-day aggregation yields one aggregate per distinct input day,
its days are sorted ascending without duplicates, and its `total_usage`
column sums to the sum of all input `usage_units`. -/
theorem aggregate_by_day_spec (rs : List Record) :
    List.Sorted (· ≤ ·) ((aggregate_by_day rs).map DailyAggregate.day) ∧
    ((aggregate_by_day rs).map DailyAggregate.day).Nodup ∧
    (∀ d, d ∈ (aggregate_by_day rs).map DailyAggregate.day ↔
      d ∈ rs.map Record.day) ∧
    ((aggregate_by_day rs).map DailyAggregate.total_usage).sum =
      (rs.map Record.usage_units).sum := by
  refine ⟨?_, ?_, ?_, ?_⟩
  · rw [aggregate_by_day_days]
    exact List.sorted_insertionSort _ _
  · rw [aggregate_by_day_days]
    exact dayKeys_nodup rs
  · intro d
    rw [aggregate_by_day_days]
    exact mem_dayKeys rs d
  · rw [aggregate_by_day, List.map_map]
    exact sum_over_groups Record.day Record.usage_units (dayKeys rs)
      (dayKeys_nodup rs) rs (fun r hr => (mem_dayKeys rs r.day).mpr
        (List.mem_map_of_mem Record.day hr))

/-! ## Per-service aggregation (src/services/ppt_engine.py, compute_metrics)

`df.groupby("service")` sorts its keys ascending by service name;
`.sort_values("total_usage", ascending=False)` is realised by pandas
(`nargsort`) by reversing the rows, taking a stable ascending argsort of the
reversed values, and reversing the resulting indexer again — a stable
descending sort in which equal-usage ties keep the pre-sort (ascending
groupby key) order.  This reverse / stable-ascending-sort / reverse pipeline
is modelled here literally. -/

/-- The distinct services of a table, ascending by name (the pandas
`groupby("service")` key order). -/
def serviceKeys (rs : List Record) : List ℕ :=
  ((rs.map Record.service).dedup).insertionSort (· ≤ ·)

/-- The group of rows of service `s`. -/
def svcGroup (rs : List Record) (s : ℕ) : List Record :=
  rs.filter (fun r => r.service = s)

/-- Per-service sums of usage/incidents and arithmetic mean of `sla_pct`. -/
def svcAggOf (rs : List Record) (s : ℕ) : ServiceAggregate :=
  { service := s
    total_usage := ((svcGroup rs s).map Record.usage_units).sum
    total_incidents := ((svcGroup rs s).map Record.incidents).sum
    avg_sla := ((svcGroup rs s).map Record.sla_pct).sum / (svcGroup rs s).length }

/-- Embedding of the `svc` frame: group by service, then sort descending by
`total_usage` the way `nargsort` does — reverse the rows, stable ascending
sort, reverse again. -/
def aggregate_by_service (rs : List Record) : List ServiceAggregate :=
  ((((serviceKeys rs).map (svcAggOf rs)).reverse).insertionSort
    (fun a b => a.total_usage ≤ b.total_usage)).reverse

/-- Strict ascending order on aggregates: by usage, ties descending by
service name (the shape of the stably sorted reversed table, whose services
descend). -/
def svcLexAsc (a b : ServiceAggregate) : Prop :=
  a.total_usage < b.total_usage ∨
    (a.total_usage = b.total_usage ∧ b.service < a.service)

/-- Strict descending order on aggregates: by usage, ties ascending by
service name (the groupby key order, which the stable descending sort keeps
on ties). -/
def svcLexDesc (a b : ServiceAggregate) : Prop :=
  b.total_usage < a.total_usage ∨
    (b.total_usage = a.total_usage ∧ a.service < b.service)

theorem svcLexAsc_usage_le {a b : ServiceAggregate} (h : svcLexAsc a b) :
    a.total_usage ≤ b.total_usage := by
  rcases h with h | ⟨h, _⟩
  · exact le_of_lt h
  · exact le_of_eq h

/-- Inserting an element whose service name follows every service in a
lex-sorted list, ordered by usage only, keeps the list lex-sorted (stability
of the insertion). -/
theorem orderedInsert_lexAsc (a : ServiceAggregate) :
    ∀ l : List ServiceAggregate, l.Pairwise svcLexAsc →
      (∀ b ∈ l, b.service < a.service) →
      (l.orderedInsert (fun x y => x.total_usage ≤ y.total_usage) a).Pairwise svcLexAsc := by
  intro l
  induction l with
  | nil => intro _ _; simp [List.orderedInsert]
  | cons b t ih =>
    intro hl ha
    rw [List.orderedInsert]
    split
    · rename_i hab
      refine List.Pairwise.cons ?_ hl
      intro x hx
      rcases List.mem_cons.mp hx with rfl | hxt
      · rcases lt_or_eq_of_le hab with h | h
        · exact Or.inl h
        · exact Or.inr ⟨h, ha x (List.mem_cons_self x t)⟩
      · have hbx : svcLexAsc b x := (List.pairwise_cons.mp hl).1 x hxt
        have : a.total_usage ≤ x.total_usage :=
          le_trans hab (svcLexAsc_usage_le hbx)
        rcases lt_or_eq_of_le this with h | h
        · exact Or.inl h
        · exact Or.inr ⟨h, ha x (List.mem_cons_of_mem b hxt)⟩
    · rename_i hab
      have hba : b.total_usage < a.total_usage := lt_of_not_le hab
      refine List.Pairwise.cons ?_
        (ih (List.pairwise_cons.mp hl).2
          (fun x hx => ha x (List.mem_cons_of_mem b hx)))
      intro x hx
      rcases (List.mem_orderedInsert _).mp hx with rfl | hxt
      · exact Or.inl hba
      · exact (List.pairwise_cons.mp hl).1 x hxt

/-- The stable ascending-by-usage sort of a list whose services are strictly
descending is lex-sorted: ties stay in descending service order. -/
theorem insertionSort_lexAsc :
    ∀ l : List ServiceAggregate,
      l.Pairwise (fun a b => b.service < a.service) →
      (l.insertionSort (fun x y => x.total_usage ≤ y.total_usage)).Pairwise svcLexAsc := by
  intro l
  induction l with
  | nil => intro _; simp [List.insertionSort]
  | cons a t ih =>
    intro hl
    rw [List.insertionSort]
    refine orderedInsert_lexAsc a _ (ih (List.pairwise_cons.mp hl).2) ?_
    intro b hb
    exact (List.pairwise_cons.mp hl).1 b ((List.mem_insertionSort _).mp hb)

theorem serviceKeys_nodup (rs : List Record) : (serviceKeys rs).Nodup :=
  ((List.perm_insertionSort _ _).nodup_iff).mpr ((rs.map Record.service).nodup_dedup)

theorem mem_serviceKeys (rs : List Record) (s : ℕ) :
    s ∈ serviceKeys rs ↔ s ∈ rs.map Record.service := by
  rw [serviceKeys, List.mem_insertionSort, List.mem_dedup]

theorem serviceKeys_sorted (rs : List Record) :
    List.Sorted (· < ·) (serviceKeys rs) :=
  (List.sorted_insertionSort _ _).lt_of_le (serviceKeys_nodup rs)

theorem aggregate_by_service_perm (rs : List Record) :
    (aggregate_by_service rs).Perm ((serviceKeys rs).map (svcAggOf rs)) :=
  (List.reverse_perm _).trans
    ((List.perm_insertionSort _ _).trans (List.reverse_perm _))

/-- C6 (amended): the per-service aggregation yields one aggregate per
distinct input service and is strictly sorted descending by `total_usage`,
services with equal `total_usage` appearing in ascending name order (the
groupby key order, which the stable descending sort keeps on ties) — not
first-seen order. -/
theorem aggregate_by_service_spec (rs : List Record) :
    (aggregate_by_service rs).Pairwise svcLexDesc ∧
    ((aggregate_by_service rs).map ServiceAggregate.service).Nodup ∧
    (∀ s, s ∈ (aggregate_by_service rs).map ServiceAggregate.service ↔
      s ∈ rs.map Record.service) := by
  have hperm : ((aggregate_by_service rs).map ServiceAggregate.service).Perm
      (serviceKeys rs) := by
    have h := (aggregate_by_service_perm rs).map ServiceAggregate.service
    rw [List.map_map] at h
    have he : (serviceKeys rs).map (ServiceAggregate.service ∘ svcAggOf rs) =
        serviceKeys rs := List.map_id'' (fun s => rfl) _
    rwa [he] at h
  refine ⟨?_, ?_, ?_⟩
  · rw [aggregate_by_service, List.pairwise_reverse]
    have hserv : (((serviceKeys rs).map (svcAggOf rs)).reverse).Pairwise
        (fun a b => b.service < a.service) := by
      rw [List.pairwise_reverse, List.pairwise_map]
      exact (serviceKeys_sorted rs).imp (fun h => h)
    exact (insertionSort_lexAsc _ hserv).imp (fun h => h)
  · exact hperm.nodup_iff.mpr (serviceKeys_nodup rs)
  · intro s
    rw [hperm.mem_iff]
    exact mem_serviceKeys rs s

/-- Rows used by the C6 counterexample: three services first seen in the
order 2 ("b"), 1 ("a"), 3 ("c") — identifiers carry the lexicographic rank
of the names — all with equal total usage. -/
def svcRowB : Record := ⟨1, 2, 5, 0, 0, 0⟩

def svcRowA : Record := ⟨1, 1, 5, 0, 0, 0⟩

def svcRowC : Record := ⟨1, 3, 5, 0, 0, 0⟩

/-- C6 counterexample: with services first seen in the order 2, 1, 3 and all
`total_usage` equal, the code emits them as 1, 2, 3 — the ascending groupby
key order, which the stable descending usage sort keeps on ties — not the
first-seen order 2, 1, 3 the claim requires. -/
theorem aggregate_by_service_not_first_seen :
    ((aggregate_by_service [svcRowB, svcRowA, svcRowC]).map
        ServiceAggregate.service = [1, 2, 3]) ∧
    (∀ a ∈ aggregate_by_service [svcRowB, svcRowA, svcRowC],
      a.total_usage = 5) ∧
    ([1, 2, 3] : List ℕ) ≠ [2, 1, 3] := by
  refine ⟨by decide, by decide, by decide⟩

/-! ## Risk narrative (src/services/ppt_engine.py, build_narrative)

The risks block appends one SLA line (at-risk iff `sla_latest < 99.5`) and
one incident line (at-risk iff `incidents_total > 120`). -/

def sla_risk_line : String :=
  "SLA below threshold; customer impact risk if trend persists."

def sla_safe_line : String :=
  "SLA within tolerance; continue proactive monitoring and post-deploy checks."

def incident_risk_line : String :=
  "Incident volume elevated; risk of response fatigue and delivery drag."

def incident_safe_line : String :=
  "Incident volume manageable; keep RCA cadence and clear ownership for top drivers."

/-- Embedding of the risks block of `build_narrative`. -/
def build_risks (kpis : KPISet) : List String :=
  (if kpis.sla_latest < 99.5 then [sla_risk_line] else [sla_safe_line]) ++
    (if kpis.incidents_total > 120 then [incident_risk_line] else [incident_safe_line])

/-- C7: the risks block has exactly two lines; the SLA line is the at-risk
variant exactly when `sla_latest < 99.5` (so 99.5 itself is safe) and the
incident line is the at-risk variant exactly when `incidents_total > 120`
(so 120 itself is safe); the variants are distinct strings. -/
theorem build_risks_thresholds (k : KPISet) :
    (build_risks k).length = 2 ∧
    (k.sla_latest < 99.5 → (build_risks k).headI = sla_risk_line) ∧
    (99.5 ≤ k.sla_latest → (build_risks k).headI = sla_safe_line) ∧
    (120 < k.incidents_total → (build_risks k).getLastI = incident_risk_line) ∧
    (k.incidents_total ≤ 120 → (build_risks k).getLastI = incident_safe_line) ∧
    sla_risk_line ≠ sla_safe_line ∧ incident_risk_line ≠ incident_safe_line := by
  refine ⟨?_, ?_, ?_, ?_, ?_, by decide, by decide⟩
  · rw [build_risks]
    split <;> split <;> rfl
  · intro h
    rw [build_risks, if_pos h]
    rfl
  · intro h
    rw [build_risks, if_neg (not_lt.mpr h)]
    rfl
  · intro h
    rw [build_risks, if_pos h]
    split <;> rfl
  · intro h
    rw [build_risks, if_neg (not_lt.mpr h)]
    split <;> rfl

/-- Witness for C7 at concrete inputs: at `sla_latest = 99.4`,
`incidents_total = 121` both at-risk lines appear; at the boundary values
`sla_latest = 99.5`, `incidents_total = 120` both safe lines appear. -/
theorem build_risks_thresholds_witness :
    (build_risks ⟨0, 0, 99.4, 0, 121⟩).length = 2 ∧
    (build_risks ⟨0, 0, 99.4, 0, 121⟩).headI = sla_risk_line ∧
    (build_risks ⟨0, 0, 99.4, 0, 121⟩).getLastI = incident_risk_line ∧
    (build_risks ⟨0, 0, 99.5, 0, 120⟩).headI = sla_safe_line ∧
    (build_risks ⟨0, 0, 99.5, 0, 120⟩).getLastI = incident_safe_line :=
  ⟨(build_risks_thresholds ⟨0, 0, 99.4, 0, 121⟩).1,
    (build_risks_thresholds ⟨0, 0, 99.4, 0, 121⟩).2.1 (by norm_num),
    (build_risks_thresholds ⟨0, 0, 99.4, 0, 121⟩).2.2.2.1 (by norm_num),
    (build_risks_thresholds ⟨0, 0, 99.5, 0, 120⟩).2.2.1 (by norm_num),
    (build_risks_thresholds ⟨0, 0, 99.5, 0, 120⟩).2.2.2.2.1 (by norm_num)⟩

/-! ## Schema validation and normalization
(src/services/data_prep.py, load_and_validate_csv;
 src/app/ppt.py, _validate_load)

A raw table is a header (column-name list) plus pre-parsed rows: an `Option`
field is `some v` when the cell parses to `v` and `none` when it does not
(`pd.to_datetime` / `pd.to_numeric` would yield an error or NaN there). -/

structure RawRow where
  day : Option ℕ
  service : ℕ
  usage_units : Option ℤ
  cost_gbp : Option ℚ
  incidents : Option ℤ
  sla_pct : Option ℚ
deriving Repr, DecidableEq

structure RawTable where
  columns : List String
  rows : List RawRow
deriving Repr, DecidableEq

inductive PrepError where
  | schemaError (missing : List String)
  | parseError (column : String)
deriving Repr, DecidableEq

def REQUIRED_COLS : List String :=
  ["day", "service", "usage_units", "cost_gbp", "incidents", "sla_pct"]

/-- `sorted(list(REQUIRED_COLS - set(df.columns)))`. -/
def missingCols (cols : List String) : List String :=
  (REQUIRED_COLS.filter (fun c => ¬ c ∈ cols)).insertionSort (· ≤ ·)

/-- The lenient numeric coercion of `load_and_validate_csv`: unparsable
numeric cells fall back to the documented defaults (usage/incidents → 0,
cost → 0.0, sla_pct → 99.9); `d` is the parsed day. -/
def coerceRow (d : ℕ) (r : RawRow) : Record :=
  { day := d
    service := r.service
    usage_units := r.usage_units.getD 0
    cost_gbp := r.cost_gbp.getD 0
    incidents := r.incidents.getD 0
    sla_pct := r.sla_pct.getD 99.9 }

/-- Embedding of `load_and_validate_csv` (src/services/data_prep.py): fail
with the sorted missing-column list when any required column is absent, fail
on any unparsable day (`pd.to_datetime` raises), else coerce numerics
leniently and return the rows in input order. -/
def load_and_validate (raw : RawTable) : Except PrepError (List Record) :=
  let missing := missingCols raw.columns
  if missing = [] then
    match raw.rows.mapM (fun r => r.day.map (fun d => coerceRow d r)) with
    | some t => .ok t
    | none => .error (.parseError "day")
  else .error (.schemaError missing)

/-- The strict row conversion of `_validate_load`; the `getD` defaults are
never reached because the all-parse guards run first. -/
def strictRow (r : RawRow) : Record :=
  { day := r.day.getD 0
    service := r.service
    usage_units := r.usage_units.getD 0
    cost_gbp := r.cost_gbp.getD 0
    incidents := r.incidents.getD 0
    sla_pct := r.sla_pct.getD 0 }

/-- Embedding of `_validate_load` (src/app/ppt.py): schema check, strict day
parse (any unparsable day fails the table), strict numeric parse (any NaN
fails the table), then `df.sort_values("day")` ascending. -/
def validate_load (raw : RawTable) : Except PrepError (List Record) :=
  let missing := missingCols raw.columns
  if missing = [] then
    if raw.rows.all (fun r => r.day.isSome) then
      if raw.rows.all (fun r => r.usage_units.isSome && r.cost_gbp.isSome &&
          r.incidents.isSome && r.sla_pct.isSome) then
        .ok ((raw.rows.map strictRow).insertionSort (fun a b => a.day ≤ b.day))
      else .error (.parseError "numeric")
    else .error (.parseError "day")
  else .error (.schemaError missing)

/-- The value of `compute_metrics`: both aggregate frames plus the KPI set. -/
structure Metrics where
  daily : List DailyAggregate
  svc : List ServiceAggregate
  kpis : KPISet
deriving Repr

def compute_metrics (df : List Record) : Metrics :=
  { daily := aggregate_by_day df
    svc := aggregate_by_service df
    kpis := compute_kpis (aggregate_by_day df) }

/-- Embedding of the metric-producing prefix of `generate_ppt_from_csv`
(src/services/ppt_engine.py): validate first, then compute metrics; a
validation failure aborts before any aggregation.  Chart rendering and deck
serialization are downstream I/O consuming these metrics. -/
def generate_metrics (raw : RawTable) : Except PrepError Metrics :=
  (load_and_validate raw).map compute_metrics

/-- C8: whenever a required column is missing, normalization fails with a
schema error carrying exactly the sorted missing-column list (both
normalizer variants agree), and the pipeline aborts with that same error
before any aggregation — no Table or metrics value is produced. -/
theorem schema_error_on_missing (raw : RawTable)
    (h : missingCols raw.columns ≠ []) :
    load_and_validate raw = .error (.schemaError (missingCols raw.columns)) ∧
    validate_load raw = .error (.schemaError (missingCols raw.columns)) ∧
    generate_metrics raw = .error (.schemaError (missingCols raw.columns)) ∧
    List.Sorted (· ≤ ·) (missingCols raw.columns) ∧
    (∀ c, c ∈ missingCols raw.columns ↔ c ∈ REQUIRED_COLS ∧ c ∉ raw.columns) := by
  have hload : load_and_validate raw =
      .error (.schemaError (missingCols raw.columns)) := by
    rw [load_and_validate]
    simp only [if_neg h]
  refine ⟨hload, ?_, ?_, ?_, ?_⟩
  · rw [validate_load]
    simp only [if_neg h]
  · rw [generate_metrics, hload]
    rfl
  · exact List.sorted_insertionSort _ _
  · intro c
    rw [missingCols, List.mem_insertionSort, List.mem_filter]
    simp

/-- The raw table of the C8 witness: all required columns except `sla_pct`. -/
def rawMissingSla : RawTable :=
  ⟨["day", "service", "usage_units", "cost_gbp", "incidents"], []⟩

/-- Witness for C8 at a concrete input: a table missing only `sla_pct` fails
both normalizers and the pipeline with exactly `["sla_pct"]`. -/
theorem schema_error_on_missing_witness :
    missingCols rawMissingSla.columns = ["sla_pct"] ∧
    load_and_validate rawMissingSla =
      .error (.schemaError (missingCols rawMissingSla.columns)) ∧
    generate_metrics rawMissingSla =
      .error (.schemaError (missingCols rawMissingSla.columns)) :=
  ⟨by decide, (schema_error_on_missing rawMissingSla (by decide)).1,
    (schema_error_on_missing rawMissingSla (by decide)).2.2.1⟩

/-- The raw table of the C9 counterexample and witness: valid, with days in
the order 2, 1. -/
def rawUnsorted : RawTable :=
  ⟨REQUIRED_COLS,
    [⟨some 2, 1, some 1, some 1, some 1, some 1⟩,
     ⟨some 1, 1, some 1, some 1, some 1, some 1⟩]⟩

/-- C9 counterexample: `load_and_validate_csv` (the normalizer the pipeline
uses) accepts `rawUnsorted` and returns its rows in input day order 2, 1 —
not sorted ascending by day. -/
theorem load_and_validate_not_sorted :
    ((load_and_validate rawUnsorted).toOption.map (List.map Record.day)) =
      some [2, 1] ∧
    ¬ List.Sorted (· ≤ ·) [2, 1] :=
  ⟨by decide, by decide⟩

instance : IsTotal Record (fun a b => a.day ≤ b.day) :=
  ⟨fun a b => Nat.le_total a.day b.day⟩

instance : IsTrans Record (fun a b => a.day ≤ b.day) :=
  ⟨fun _ _ _ => Nat.le_trans⟩

/-- C9 (amended): the `_validate_load` normalizer returns a Table sorted
ascending by day for every raw input it accepts; the `load_and_validate_csv`
normalizer keeps the input row order (see the counterexample). -/
theorem validate_load_sorted (raw : RawTable) (t : List Record)
    (h : validate_load raw = .ok t) :
    List.Sorted (fun a b : Record => a.day ≤ b.day) t := by
  rw [validate_load] at h
  by_cases h1 : missingCols raw.columns = []
  · rw [if_pos h1] at h
    by_cases h2 : raw.rows.all (fun r => r.day.isSome)
    · rw [if_pos h2] at h
      by_cases h3 : raw.rows.all (fun r => r.usage_units.isSome &&
          r.cost_gbp.isSome && r.incidents.isSome && r.sla_pct.isSome)
      · rw [if_pos h3] at h
        have ht : (raw.rows.map strictRow).insertionSort
            (fun a b => a.day ≤ b.day) = t := by
          exact Except.ok.inj h
        rw [← ht]
        exact List.sorted_insertionSort _ _
      · rw [if_neg h3] at h
        exact absurd h (by simp)
    · rw [if_neg h2] at h
      exact absurd h (by simp)
  · rw [if_neg h1] at h
    exact absurd h (by simp)

/-- Witness for C9's amended theorem at a concrete input: `_validate_load`
accepts `rawUnsorted` and returns its rows re-sorted into day order 1, 2. -/
theorem validate_load_sorted_witness :
    validate_load rawUnsorted =
      .ok [(⟨1, 1, 1, 1, 1, 1⟩ : Record), ⟨2, 1, 1, 1, 1, 1⟩] ∧
    List.Sorted (fun a b : Record => a.day ≤ b.day)
      [(⟨1, 1, 1, 1, 1, 1⟩ : Record), ⟨2, 1, 1, 1, 1, 1⟩] :=
  ⟨rfl, validate_load_sorted rawUnsorted _ rfl⟩

end InsightDeck
